import Mathlib

/-!
# Verification of the go-jq value bridge and run-session lifecycle

Shallow embedding of `src/jq.go`, a Go binding to the jq engine (libjq).

Two complementary models are developed:

* a **pure value model** (`Jv`, `GoVal`, `goToJv`, `jvToGo`) of the
  bidirectional conversion between Go values and jq `jv` values, with the
  C `double` payload modelled as a rational number (every finite double is
  rational; the model treats the double and the platform `int` as exact),
  plus a reference-accounting instrumentation (`jvToGoC`) that counts the
  external references `jvToGo` obtains and never releases;

* a **handle/arena model** (`HVal`, `Arena`, `JQState`) of the session
  lifecycle: the reference-counted cell backing the session's held value,
  and the stateful operations `Next`, `Value`, `ValueJson`, `ValueString`,
  `Close`, `parseJson`, `HandleJson`.

Operations of the external engine itself (libjq) are not part of the
repository; where a definition models one of them it is modelled from the
spec's interface description and says so in its doc comment.
-/

namespace GoJq

/-- Model of a jq `jv` value: a kind tag with its payload.
`invalid` optionally carries a diagnostic message (`jv_invalid_with_msg`
is only ever applied to strings in the source).  The numeric payload of
`number` models the C `double` as a rational (exact model).  `obj` fields
are an insertion-ordered association list; `jv_object_set` inserts by key. -/
inductive Jv where
  | invalid (msg : Option String)
  | null
  | jfalse
  | jtrue
  | number (q : ℚ)
  | str (s : String)
  | arr (elems : List Jv)
  | obj (fields : List (Jv × Jv))
deriving Repr

mutual

/-- Structural equality test on `Jv` (model of `jv_equal`; used as the key
comparison of the object-insertion model). -/
def jvBeq : Jv → Jv → Bool
  | .invalid none, .invalid none => true
  | .invalid (some a), .invalid (some b) => a == b
  | .null, .null => true
  | .jfalse, .jfalse => true
  | .jtrue, .jtrue => true
  | .number p, .number q => p == q
  | .str a, .str b => a == b
  | .arr xs, .arr ys => jvBeqList xs ys
  | .obj xs, .obj ys => jvBeqFields xs ys
  | _, _ => false

/-- Element-wise equality of `Jv` lists. -/
def jvBeqList : List Jv → List Jv → Bool
  | [], [] => true
  | x :: xs, y :: ys => jvBeq x y && jvBeqList xs ys
  | _, _ => false

/-- Element-wise equality of `Jv` field lists. -/
def jvBeqFields : List (Jv × Jv) → List (Jv × Jv) → Bool
  | [], [] => true
  | (k1, v1) :: xs, (k2, v2) :: ys => jvBeq k1 k2 && jvBeq v1 v2 && jvBeqFields xs ys
  | _, _ => false

end

instance : BEq Jv := ⟨jvBeq⟩

/-- Model of a Go `interface{}` value as the source manipulates it via
reflection: the six bridged kinds plus `uint` (handled by the same switch),
a non-nil pointer (`ptr`), the nil interface (`nil`), and a Go `error`
value (`err`, as produced by `errors.New`). -/
inductive GoVal where
  | nil
  | bool (b : Bool)
  | int (n : Int)
  | uint (n : Nat)
  | float (q : ℚ)
  | str (s : String)
  | list (xs : List GoVal)
  | map (kvs : List (GoVal × GoVal))
  | ptr (v : GoVal)
  | err (msg : String)
deriving Repr

/-- Model of `reflect.Indirect`: dereference one level of pointer,
identity on everything else. -/
def indirect : GoVal → GoVal
  | .ptr v => v
  | v => v

/-- Modelled from the Go standard library: the `%v` rendering used only
inside the "unknown type" diagnostic message of `goToJv`. -/
def goFormat : GoVal → String
  | .nil => "<nil>"
  | .bool b => toString b
  | .int n => toString n
  | .uint n => toString n
  | .float q => toString q
  | .str s => s
  | .list _ => "[...]"
  | .map _ => "map[...]"
  | .ptr _ => "&"
  | .err m => m

/-- Modelled from the spec: the engine's is-integer flag on a number
"distinguishing an integral numeric value from a fractional one"
(`jv_is_integer`). -/
def jvIsInteger (q : ℚ) : Bool := q.den == 1

/-- Model of `jv_string_value` (a borrow): the string payload of a string
value; unspecified (modelled as `""`) on other kinds. -/
def jvStringValue : Jv → String
  | .str s => s
  | _ => ""

/-- Model of `jv_object_set`: insert a key/value pair into an object's
field list, replacing the value under an already-present key, otherwise
appending.  (libjq inserts by key into a hash; the association-list model
keeps first-insertion order.) -/
def objSet (fields : List (Jv × Jv)) (k v : Jv) : List (Jv × Jv) :=
  if fields.any (fun p => jvBeq p.1 k) then
    fields.map (fun p => if jvBeq p.1 k then (p.1, v) else p)
  else fields ++ [(k, v)]

/-- Whether an association-list entry of a Go `map[string]interface{}`
has the given string key. -/
def goKeyEq : GoVal → String → Bool
  | .str s, k => s == k
  | _, _ => false

/-- Model of Go map assignment `result[k] = v` for a
`map[string]interface{}`: replace the value under an existing key,
otherwise add the binding. -/
def mapInsert (m : List (GoVal × GoVal)) (k : String) (v : GoVal) : List (GoVal × GoVal) :=
  if m.any (fun p => goKeyEq p.1 k) then
    m.map (fun p => if goKeyEq p.1 k then (p.1, v) else p)
  else m ++ [(GoVal.str k, v)]

mutual

/-- Embedding of `goToJv` (src/jq.go, lines 140-186): the nil-interface
check, then `reflect.Indirect`, then the kind switch.  `reflect.Indirect`
strips exactly one pointer before the switch; the embedding realizes
this by pairing every kind pattern with its single-`ptr` twin (so the
recursion stays structural).  The switch: bool to `jv_true`/`jv_false`;
signed and unsigned integers and floats to `jv_number` of the value as a
double; strings to `jv_string`; arrays and slices to a sized `jv_array`
set index by index in order 0..n-1; maps to a `jv_object` with each key
and value converted by the same `goToJv`; any kind the switch does not
list (after the one indirection) falls through to
`jv_invalid_with_msg("unknown type for: %v")`. -/
def goToJv : GoVal → Jv
  | .nil => Jv.null
  | .bool b => if b then Jv.jtrue else Jv.jfalse
  | .ptr (.bool b) => if b then Jv.jtrue else Jv.jfalse
  | .int n => Jv.number (n : ℚ)
  | .ptr (.int n) => Jv.number (n : ℚ)
  | .uint n => Jv.number (n : ℚ)
  | .ptr (.uint n) => Jv.number (n : ℚ)
  | .float q => Jv.number q
  | .ptr (.float q) => Jv.number q
  | .str s => Jv.str s
  | .ptr (.str s) => Jv.str s
  | .list xs => Jv.arr (goToJvList xs)
  | .ptr (.list xs) => Jv.arr (goToJvList xs)
  | .map kvs => Jv.obj (goToJvObj kvs [])
  | .ptr (.map kvs) => Jv.obj (goToJvObj kvs [])
  | w => Jv.invalid (some ("unknown type for: " ++ goFormat (indirect w)))

/-- The element loop of `goToJv`'s array/slice case: each element is
converted by the full `goToJv` and placed at its index, order preserved. -/
def goToJvList : List GoVal → List Jv
  | [] => []
  | x :: xs => goToJv x :: goToJvList xs

/-- The key loop of `goToJv`'s map case: `object = jv_object()`, then for
each key `k`: `object = jv_object_set(object, goToJv(k), goToJv(m[k]))`.
Note the key goes through the *general* `goToJv`, not a string conversion. -/
def goToJvObj : List (GoVal × GoVal) → List (Jv × Jv) → List (Jv × Jv)
  | [], acc => acc
  | (k, v) :: kvs, acc => goToJvObj kvs (objSet acc (goToJv k) (goToJv v))

end

mutual

/-- Embedding of `jvToGo` (src/jq.go, lines 188-226): the kind switch.
invalid to `errors.New("invalid")`; null/false/true to nil and booleans;
number to Go `int` of the double when `jv_is_integer` holds, else to
`float64`; string to its copied-out contents; array to a Go slice of the
converted elements in order; object to a Go `map[string]interface{}`
filled by iterating the fields; unknown kinds to
`errors.New("unknown type")` (unreachable in the model: every kind is a
constructor). -/
def jvToGo : Jv → GoVal
  | .invalid _ => GoVal.err "invalid"
  | .null => GoVal.nil
  | .jfalse => GoVal.bool false
  | .jtrue => GoVal.bool true
  | .number q =>
    if jvIsInteger q then GoVal.int (q.num / (q.den : Int)) else GoVal.float q
  | .str s => GoVal.str s
  | .arr xs => GoVal.list (jvToGoList xs)
  | .obj kvs => GoVal.map (jvToGoObj kvs [])

/-- The index loop of `jvToGo`'s array case:
`arr[i] = jvToGo(jv_array_get(jv_copy(value), i))` for i = 0..n-1. -/
def jvToGoList : List Jv → List GoVal
  | [] => []
  | x :: xs => jvToGo x :: jvToGoList xs

/-- The iterator loop of `jvToGo`'s object case:
`result[GoString(jv_string_value(k))] = jvToGo(v)` for each field in
iteration order (last-seen-wins on duplicate keys). -/
def jvToGoObj : List (Jv × Jv) → List (GoVal × GoVal) → List (GoVal × GoVal)
  | [], acc => acc
  | (k, v) :: kvs, acc => jvToGoObj kvs (mapInsert acc (jvStringValue k) (jvToGo v))

end

/-! ## Reference accounting of `jvToGo`

`jvToGoC` is `jvToGo` instrumented with the number of external references
the source obtains and never releases, following libjq's ownership rules
as the spec describes them at the interface:

* `jv_copy` acquires one reference; `jv_array_length` consumes its
  argument — the `jv_copy(value)` / `jv_array_length(...)` pair in the
  array case is balanced and contributes nothing;
* each `jv_array_get(jv_copy(value), i)` consumes the copy and, per the
  spec, "yields a new reference that must be released after conversion" —
  the source never releases it, so every array element contributes one
  unreleased reference plus whatever its own conversion drops;
* kind/number/string accessors and the object iteration protocol are
  borrows and contribute nothing beyond the recursion on field values. -/

mutual

/-- `jvToGo` with its count of obtained-but-never-released references. -/
def jvToGoC : Jv → GoVal × Nat
  | .invalid _ => (GoVal.err "invalid", 0)
  | .null => (GoVal.nil, 0)
  | .jfalse => (GoVal.bool false, 0)
  | .jtrue => (GoVal.bool true, 0)
  | .number q =>
    ((if jvIsInteger q then GoVal.int (q.num / (q.den : Int)) else GoVal.float q), 0)
  | .str s => (GoVal.str s, 0)
  | .arr xs =>
    let r := jvToGoCArr xs
    (GoVal.list r.1, r.2)
  | .obj kvs =>
    let r := jvToGoCObj kvs []
    (GoVal.map r.1, r.2)

/-- Array loop of `jvToGoC`: one unreleased `jv_array_get` reference per
element, plus the leaks of the element's own conversion. -/
def jvToGoCArr : List Jv → List GoVal × Nat
  | [] => ([], 0)
  | x :: xs =>
    let e := jvToGoC x
    let r := jvToGoCArr xs
    (e.1 :: r.1, (1 + e.2) + r.2)

/-- Object loop of `jvToGoC`: iteration borrows, field values recurse. -/
def jvToGoCObj : List (Jv × Jv) → List (GoVal × GoVal) → List (GoVal × GoVal) × Nat
  | [], acc => (acc, 0)
  | (k, v) :: kvs, acc =>
    let e := jvToGoC v
    let r := jvToGoCObj kvs (mapInsert acc (jvStringValue k) e.1)
    (r.1, e.2 + r.2)

end

/-- The number of external references `jvToGo` obtains on behalf of the
core and never releases when converting the given value. -/
def jvLeaked (v : Jv) : Nat := (jvToGoC v).2

/-! ## Handle/arena model of the session lifecycle

The lifecycle claims are about one thing: the reference-counted cell
behind the session's held `jv` and when the source releases it.  An
`Arena` maps cell ids to reference counts; an `HVal` is a `jv` handle as
the session holds it — either backed by a refcounted cell of the arena
(strings, arrays, objects, invalids carrying a message) or a non-heap
scalar (`jv_invalid()`, `jv_null()`, booleans, numbers), on which
`jv_free` is a no-op and `jv_get_refcnt` reports 1, as for any unshared
value. -/

/-- Reference-count arena of the external engine: cell id to count. -/
def Arena : Type := Nat → Nat

/-- A `jv` handle as held by the session: optional backing cell plus the
value payload. -/
structure HVal where
  cell : Option Nat
  val : Jv

/-- `jv_invalid()`: the invalid sentinel, not heap-backed. -/
def invalidH : HVal := ⟨none, Jv.invalid none⟩

/-- `jv_null()`: the null scalar, not heap-backed. -/
def nullH : HVal := ⟨none, Jv.null⟩

/-- Model of `freeJv`/`jv_free`: decrement the backing cell's count;
a no-op on non-heap scalars (in particular on `jv_invalid()`). -/
def freeJv (h : HVal) (a : Arena) : Arena :=
  match h.cell with
  | none => a
  | some i => fun j => if j = i then a i - 1 else a j

/-- Model of `jv_get_refcnt`: the backing cell's current count, or 1 for
a non-heap scalar. -/
def jvGetRefcnt (h : HVal) (a : Arena) : Nat :=
  match h.cell with
  | none => 1
  | some i => a i

/-- Embedding of `isValid` (src/jq.go): `jv_is_valid(jv) != 0`, i.e. the
kind is not invalid. -/
def isValid : Jv → Bool
  | .invalid _ => false
  | _ => true

/-- Embedding of the `JQ` struct's mutable session fields: the held value
`lastValue`, the reference count recorded when it was captured
(`prevRefCnt`), whether the run-state has not been torn down, and the
input of the last started run (the observable effect of `jq_start`). -/
structure JQState where
  lastValue : HVal
  prevRefCnt : Nat
  stateOpen : Bool
  runInput : Option HVal

/-- The session as `NewJQ` leaves it: `lastValue = jv_invalid()`,
`prevRefCnt = 0`, live state, no run started. -/
def initJQ : JQState := ⟨invalidH, 0, true, none⟩

/-- Embedding of `start`: `jq_start(state, jv, 0)` — begins a run seeded
with the given value (which the engine consumes). -/
def start (s : JQState) (input : HVal) : JQState :=
  ⟨s.lastValue, s.prevRefCnt, s.stateOpen, some input⟩

/-- Embedding of `Next` (src/jq.go, lines 47-55).  The engine's
`jq_next` is the external pull; its result is the `pulled` argument.
In source order: if `prevRefCnt` equals `jv_get_refcnt(lastValue)` now,
free the held value; store the pulled value; record its reference count;
return its validity. -/
def Next (pulled : HVal) : JQState × Arena → (JQState × Arena) × Bool :=
  fun sa =>
    let s := sa.1
    let a := sa.2
    let a1 := if s.prevRefCnt = jvGetRefcnt s.lastValue a then freeJv s.lastValue a else a
    let s1 : JQState := ⟨pulled, jvGetRefcnt pulled a1, s.stateOpen, s.runInput⟩
    ((s1, a1), isValid pulled.val)

/-- Embedding of `Value`: `jvToGo(lastValue)`.  Its `jv_copy(value)` /
`jv_array_length` and `jv_copy(value)` / `jv_array_get` pairs are
balanced on the held cell, so the held cell's count is unchanged (the
element references it drops are the pure model's `jvLeaked`, not
references to the held cell). -/
def Value : JQState × Arena → GoVal × (JQState × Arena) :=
  fun sa => (jvToGo sa.1.lastValue.val, sa)

/-- Modelled from the spec: `formatText(ExternalValue) -> string`
(`jv_dump_string`), a total serializer; its text on an invalid value is
unspecified and modelled as the empty string. -/
def jvDump : Jv → String
  | .invalid _ => ""
  | .null => "null"
  | .jfalse => "false"
  | .jtrue => "true"
  | .number q => toString q
  | .str s => "\"" ++ s ++ "\""
  | .arr _ => "[...]"
  | .obj _ => "\x7b...\x7d"

/-- Embedding of `ValueJson`/`dumpJson`: `jv_dump_string(lastValue, 0)`.
The formatter consumes the reference passed to it (the source's comment
in `Next` — "jq.ValueJson() is self execute internally (jv_dump_term in
the jv_dump_string)" — documents exactly this); the temporary string it
allocates is released by `dumpJson` itself and is net-zero on the arena. -/
def ValueJson : JQState × Arena → String × (JQState × Arena) :=
  fun sa => (jvDump sa.1.lastValue.val, (sa.1, freeJv sa.1.lastValue sa.2))

/-- Embedding of `ValueString` (src/jq.go, lines 65-73): when the held
value's kind is string, copy out its contents and explicitly
`freeJv(jq.lastValue)`; otherwise fall back to `dumpJson`, whose
formatter consumes the reference. -/
def ValueString : JQState × Arena → String × (JQState × Arena) :=
  fun sa =>
    match sa.1.lastValue.val with
    | .str t => (t, (sa.1, freeJv sa.1.lastValue sa.2))
    | _ => (jvDump sa.1.lastValue.val, (sa.1, freeJv sa.1.lastValue sa.2))

/-- Embedding of `Close` (src/jq.go, lines 75-79): free the held value,
reset the slot to `jv_invalid()`, tear down the run-state
(`jq_teardown`, itself safe to repeat). -/
def Close : JQState × Arena → JQState × Arena :=
  fun sa =>
    (⟨invalidH, sa.1.prevRefCnt, false, sa.1.runInput⟩, freeJv sa.1.lastValue sa.2)

/-- Embedding of `parseJson` (src/jq.go, lines 111-119), parametrized by
the external parser `P` (`jv_parse`, an engine operation): parse, then —
deciding by the engine's own validity predicate on the parsed value, not
by the text — either return the value, or return `jv_null()` with the
error `"Invalid JSON"`. -/
def parseJson (P : String → HVal) (text : String) : HVal × Option String :=
  let v := P text
  if isValid v.val then (v, none) else (nullH, some "Invalid JSON")

/-- Embedding of `HandleJson` (src/jq.go, lines 36-45): parse the text;
on success start a run with the parsed value and return no error; on
failure return the parse error without starting anything. -/
def HandleJson (P : String → HVal) (text : String) (s : JQState) :
    JQState × Option String :=
  match parseJson P text with
  | (v, none) => (start s v, none)
  | (_, some e) => (s, some e)

/-! ## The cleanliness predicate for the round-trip property

`Clean` carves out the host values for which the round trip is exact in
the model: the six bridged kinds, with no `float` whose value is
integral (those return as `int`), and map keys that are strings, pairwise
distinct (a Go map cannot hold duplicate keys; the association-list
model states it explicitly). -/

/-- The string key of a map entry (its payload when textual). -/
def keyStr : GoVal → String
  | .str s => s
  | _ => ""

/-- No entry of the list has the given string key. -/
def keysFresh : String → List (GoVal × GoVal) → Bool
  | _, [] => true
  | s, (k, _) :: kvs => (keyStr k != s) && keysFresh s kvs

/-- The string keys of the list are pairwise distinct. -/
def keysNodup : List (GoVal × GoVal) → Bool
  | [] => true
  | (k, _) :: kvs => keysFresh (keyStr k) kvs && keysNodup kvs

/-- Whether a host value is textual (a string). -/
def isStrKey : GoVal → Bool
  | .str _ => true
  | _ => false

mutual

/-- A host value of the six bridged kinds containing no integral float,
with string-keyed, duplicate-free maps. -/
def Clean : GoVal → Bool
  | .nil => true
  | .bool _ => true
  | .int _ => true
  | .float q => !(jvIsInteger q)
  | .str _ => true
  | .list xs => CleanList xs
  | .map kvs => CleanMap kvs && keysNodup kvs
  | _ => false

/-- All elements are `Clean`. -/
def CleanList : List GoVal → Bool
  | [] => true
  | x :: xs => Clean x && CleanList xs

/-- All keys are strings and all values are `Clean`. -/
def CleanMap : List (GoVal × GoVal) → Bool
  | [] => true
  | (k, v) :: kvs => isStrKey k && Clean v && CleanMap kvs

end

/-! ## Concrete sample values used by witnesses and counterexamples -/

/-- One half: a non-integral double payload (constructed directly so it
evaluates by kernel reduction). -/
def half : ℚ := ⟨1, 2, by decide, Nat.coprime_one_left 2⟩

/-- A one-cell arena: cell 0 holds reference count 1, everything else 0. -/
def sampleArena : Arena := fun j => if j = 0 then 1 else 0

/-- A string value held through cell 0. -/
def heldString : HVal := ⟨some 0, Jv.str "x"⟩

/-- A session holding `heldString`, captured when its count was 1. -/
def sampleState : JQState := ⟨heldString, 1, true, none⟩

/-- The Go kinds the conversion switch of `goToJv` handles. -/
def basicKind : GoVal → Bool
  | .bool _ => true
  | .int _ => true
  | .uint _ => true
  | .float _ => true
  | .str _ => true
  | .list _ => true
  | .map _ => true
  | _ => false

/-! ## Claims about the run-session lifecycle -/

/-- C1: on every pull (`Next`) the session releases the held value iff the
reference count observed on it at the moment of the pull equals the count
recorded at capture; otherwise the release is skipped and the arena is
untouched; in both cases the slot is overwritten with the pulled value,
the recorded count becomes the pulled value's count, and the pull returns
the pulled value's validity. -/
theorem next_release_policy (s : JQState) (a : Arena) (p : HVal) (i : Nat)
    (hcell : s.lastValue.cell = some i) (hpos : 0 < a i) :
    (((Next p (s, a)).1.2 i < a i) ↔ s.prevRefCnt = jvGetRefcnt s.lastValue a)
    ∧ (s.prevRefCnt ≠ jvGetRefcnt s.lastValue a → (Next p (s, a)).1.2 = a)
    ∧ (s.prevRefCnt = jvGetRefcnt s.lastValue a →
        (Next p (s, a)).1.2 i = a i - 1 ∧ ∀ j, j ≠ i → (Next p (s, a)).1.2 j = a j)
    ∧ (Next p (s, a)).1.1.lastValue = p
    ∧ (Next p (s, a)).1.1.prevRefCnt = jvGetRefcnt p (Next p (s, a)).1.2
    ∧ (Next p (s, a)).2 = isValid p.val := by
  have hfree : freeJv s.lastValue a = fun j => if j = i then a i - 1 else a j := by
    simp [freeJv, hcell]
  by_cases h : s.prevRefCnt = jvGetRefcnt s.lastValue a
  · have ha : (Next p (s, a)).1.2 = fun j => if j = i then a i - 1 else a j := by
      simp [Next, if_pos h, hfree]
    refine ⟨?_, fun hn => absurd h hn, fun _ => ?_, rfl, rfl, rfl⟩
    · exact iff_of_true (by rw [ha]; simp; omega) h
    · exact ⟨by rw [ha]; simp, fun j hj => by rw [ha]; simp [hj]⟩
  · have ha : (Next p (s, a)).1.2 = a := by
      simp [Next, if_neg h]
    refine ⟨?_, fun _ => ha, fun hc => absurd hc h, rfl, rfl, rfl⟩
    · rw [ha]; exact iff_of_false (lt_irrefl _) h

/-- Witness for C1 at a concrete session: counts agal, so the pull
released the held cell (its count strictly dropped). -/
theorem next_release_policy_witness :
    0 < sampleArena 0 ∧ (Next invalidH (sampleState, sampleArena)).1.2 0 < sampleArena 0 :=
  ⟨by decide,
   ((next_release_policy sampleState sampleArena invalidH 0 rfl (by decide)).1).mpr rfl⟩

/-- C2 (code bug): converting the external array `["x"]` to a host value
obtains one fresh reference per element (`jv_array_get`) and never
releases it — the conversion of `["x"]` ends with one obtained reference
unreleased, violating the release-exactly-once invariant. -/
theorem array_elem_refs_leaked :
    (jvToGoC (Jv.arr [Jv.str "x"])).1 = GoVal.list [GoVal.str "x"]
    ∧ jvLeaked (Jv.arr [Jv.str "x"]) = 1 :=
  ⟨rfl, rfl⟩

/-- C3 (counterexample): `ValueString` on a session holding a string value
is not read-only — it releases the core's outstanding reference (cell 0
drops from count 1 to 0) even though it returns the string contents. -/
theorem valueString_frees_held :
    (ValueString (sampleState, sampleArena)).1 = "x"
    ∧ (ValueString (sampleState, sampleArena)).2.2 0 = 0
    ∧ sampleArena 0 = 1 :=
  ⟨rfl, rfl, rfl⟩

/-- C3 (amended): `Value` is read-only — it leaves the whole session state
and arena unchanged; `ValueJson` and `ValueString` leave every session
field (the slot included) unchanged but strictly drop the held cell's
reference count, handing the core's reference to the formatter
(`jv_dump_string` consumes it) or releasing it explicitly. -/
theorem accessor_effects (s : JQState) (a : Arena) (i : Nat)
    (hcell : s.lastValue.cell = some i) (hpos : 0 < a i) :
    (Value (s, a)).2 = (s, a)
    ∧ (ValueJson (s, a)).2.1 = s
    ∧ (ValueJson (s, a)).2.2 i < a i
    ∧ (ValueString (s, a)).2.1 = s
    ∧ (ValueString (s, a)).2.2 i < a i := by
  have hfree : freeJv s.lastValue a i = a i - 1 := by simp [freeJv, hcell]
  refine ⟨rfl, rfl, ?_, ?_, ?_⟩
  · show freeJv s.lastValue a i < a i
    rw [hfree]; omega
  · cases hv : s.lastValue.val <;> simp [ValueString, hv]
  · cases hv : s.lastValue.val <;> simp [ValueString, hv, hfree] <;> omega

/-- Witness for the amended C3 at a concrete session. -/
theorem accessor_effects_witness :
    (Value (sampleState, sampleArena)).2 = (sampleState, sampleArena)
    ∧ (ValueJson (sampleState, sampleArena)).2.2 0 < sampleArena 0 :=
  ⟨(accessor_effects sampleState sampleArena 0 rfl (by decide)).1,
   (accessor_effects sampleState sampleArena 0 rfl (by decide)).2.2.1⟩

/-- C7: on the fresh session (never pulled) and after any pull that
returned false, the three accessors yield the invalid/empty host
representations — `Value` the value-shaped conversion error
`errors.New("invalid")`, the text accessors the formatter's output on the
invalid value — rather than being undefined. -/
theorem invalid_accessors :
    (∀ a : Arena,
      (Value (initJQ, a)).1 = GoVal.err "invalid"
      ∧ (ValueJson (initJQ, a)).1 = ""
      ∧ (ValueString (initJQ, a)).1 = "")
    ∧ (∀ (s : JQState) (a : Arena) (p : HVal), (Next p (s, a)).2 = false →
      (Value ((Next p (s, a)).1)).1 = GoVal.err "invalid"
      ∧ (ValueJson ((Next p (s, a)).1)).1 = ""
      ∧ (ValueString ((Next p (s, a)).1)).1 = "") := by
  constructor
  · intro a; exact ⟨rfl, rfl, rfl⟩
  · intro s a p h
    have hv : isValid p.val = false := h
    cases hp : p.val
    case invalid m =>
      refine ⟨?_, ?_, ?_⟩
      · show jvToGo p.val = GoVal.err "invalid"
        rw [hp]; rfl
      · show jvDump p.val = ""
        rw [hp]; rfl
      · simp [ValueString, Next, hp, jvDump]
    all_goals (rw [hp] at hv; simp [isValid] at hv)

/-- Witness for C7: a pull that returned false leaves `Value` yielding the
conversion error. -/
theorem invalid_accessors_witness :
    (Next invalidH (initJQ, sampleArena)).2 = false
    ∧ (Value ((Next invalidH (initJQ, sampleArena)).1)).1 = GoVal.err "invalid" :=
  ⟨rfl, (invalid_accessors.2 initJQ sampleArena invalidH rfl).1⟩

/-- C8: `parseJson` fails (with error "Invalid JSON") iff the engine's
validity predicate rejects the parser's output — for every parser and
every text, independent of the text itself — and `HandleJson` on a text
that fails to parse returns that error with the session unchanged, so no
run is ever started with it; on success it starts the run on the parsed
value. -/
theorem parse_validity_handle (P : String → HVal) (t : String) (s : JQState) :
    ((parseJson P t).2 = some "Invalid JSON" ↔ isValid (P t).val = false)
    ∧ ((parseJson P t).2 = none ↔ isValid (P t).val = true)
    ∧ (isValid (P t).val = true → (parseJson P t).1 = P t)
    ∧ (isValid (P t).val = false → HandleJson P t s = (s, some "Invalid JSON"))
    ∧ (isValid (P t).val = true →
        HandleJson P t s = (start s (P t), none)
        ∧ (HandleJson P t s).1.runInput = some (P t)) := by
  by_cases h : isValid (P t).val = true
  · refine ⟨?_, ?_, fun _ => ?_, fun hf => ?_, fun _ => ⟨?_, ?_⟩⟩ <;>
      simp [parseJson, HandleJson, start, h] at *
  · have h' : isValid (P t).val = false := by simpa using h
    refine ⟨?_, ?_, fun ht => ?_, fun _ => ?_, fun ht => ?_⟩ <;>
      simp [parseJson, HandleJson, start, h'] at *

/-- Witness for C8: a parser whose output is invalid makes `HandleJson`
return the parse error and leave the session untouched. -/
theorem parse_validity_handle_witness :
    HandleJson (fun _ => invalidH) "not json" initJQ = (initJQ, some "Invalid JSON") :=
  (parse_validity_handle (fun _ => invalidH) "not json" initJQ).2.2.2.1 rfl

/-- C9: `Close` is valid in every state: it releases the held cell (count
drops by one), resets the slot to the invalid sentinel, tears down the
run-state, and a second `Close` — releasing the already-reset invalid
slot, on which `jv_free` is a no-op — changes nothing at all. -/
theorem close_release_idempotent (s : JQState) (a : Arena) :
    (Close (s, a)).1.lastValue = invalidH
    ∧ (Close (s, a)).1.stateOpen = false
    ∧ (∀ i, s.lastValue.cell = some i →
        (Close (s, a)).2 i = a i - 1 ∧ ∀ j, j ≠ i → (Close (s, a)).2 j = a j)
    ∧ (s.lastValue.cell = none → (Close (s, a)).2 = a)
    ∧ Close (Close (s, a)) = Close (s, a) := by
  refine ⟨rfl, rfl, fun i hi => ⟨?_, fun j hj => ?_⟩, fun h0 => ?_, rfl⟩
  · show freeJv s.lastValue a i = a i - 1
    simp [freeJv, hi]
  · show freeJv s.lastValue a j = a j
    simp [freeJv, hi, hj]
  · show freeJv s.lastValue a = a
    simp [freeJv, h0]

/-- Witness for C9 at a concrete session: closing released the held cell. -/
theorem close_release_idempotent_witness :
    (Close (sampleState, sampleArena)).2 0 = sampleArena 0 - 1 :=
  (((close_release_idempotent sampleState sampleArena).2.2.1) 0 rfl).1

/-! ## Claims about the value bridge -/

/-- C5: converting an external number yields a host `Int` exactly when the
engine's is-integer predicate holds of it, and the host `Float` carrying
the same value exactly when it does not. -/
theorem number_int_float_split (q : ℚ) :
    ((∃ n : Int, jvToGo (Jv.number q) = GoVal.int n) ↔ jvIsInteger q = true)
    ∧ ((jvToGo (Jv.number q) = GoVal.float q) ↔ jvIsInteger q = false) := by
  by_cases h : jvIsInteger q = true
  · constructor <;> simp [jvToGo, h]
  · have h' : jvIsInteger q = false := by simpa using h
    constructor <;> simp [jvToGo, h']

/-- Witness for C5: the non-integral number 1/2 converts to the host
float 1/2. -/
theorem number_int_float_split_witness :
    jvToGo (Jv.number half) = GoVal.float half :=
  (number_int_float_split half).2.mpr rfl

/-- C6 (counterexample): converting a Go map with the non-textual key `1`
inserts the key as the external *number* 1 — not as a string: the key is
neither stringified nor converted via the string case. -/
theorem nonstring_key_inserted :
    goToJv (GoVal.map [(GoVal.int 1, GoVal.nil)]) = Jv.obj [(Jv.number 1, Jv.null)]
    ∧ ∀ s : String, Jv.number 1 ≠ Jv.str s :=
  ⟨rfl, fun _ h => Jv.noConfusion h⟩

/-- C10: `goToJv` maps the nil interface to external null, and on a
non-nil pointer to a value of a supported kind it dereferences the
pointer and converts exactly as it would convert the pointed-to value. -/
theorem pointer_indirection :
    goToJv GoVal.nil = Jv.null
    ∧ ∀ v : GoVal, basicKind v = true → goToJv (GoVal.ptr v) = goToJv v := by
  refine ⟨rfl, fun v hv => ?_⟩
  cases v <;> first | rfl | simp [basicKind] at hv

/-- Witness for C10: a pointer to a boolean converts like the boolean. -/
theorem pointer_indirection_witness :
    goToJv (GoVal.ptr (GoVal.bool true)) = goToJv (GoVal.bool true) :=
  pointer_indirection.2 (GoVal.bool true) rfl

/-! ## The round trip (C4, C6 amended) -/

theorem jvBeq_str_eq_true_iff (x : Jv) (t : String) :
    jvBeq x (Jv.str t) = true ↔ x = Jv.str t := by
  cases x
  case invalid m => cases m <;> simp [jvBeq]
  all_goals simp [jvBeq]

theorem objSet_append (acc : List (Jv × Jv)) (k v : Jv)
    (h : ∀ r ∈ acc, jvBeq r.1 k = false) :
    objSet acc k v = acc ++ [(k, v)] := by
  have hany : (acc.any fun r => jvBeq r.1 k) = false := by
    rw [List.any_eq_false]
    intro r hr
    simp [h r hr]
  simp [objSet, hany]

theorem mapInsert_append (m : List (GoVal × GoVal)) (k : String) (v : GoVal)
    (h : ∀ r ∈ m, goKeyEq r.1 k = false) :
    mapInsert m k v = m ++ [(GoVal.str k, v)] := by
  have hany : (m.any fun r => goKeyEq r.1 k) = false := by
    rw [List.any_eq_false]
    intro r hr
    simp [h r hr]
  simp [mapInsert, hany]

theorem keysFresh_spec : ∀ (s : String) (kvs : List (GoVal × GoVal)),
    keysFresh s kvs = true → ∀ p ∈ kvs, keyStr p.1 ≠ s
  | _, [], _, p, hp => absurd hp (List.not_mem_nil p)
  | s, (k, v) :: kvs, h, p, hp => by
      have h' : (keyStr k != s) = true ∧ keysFresh s kvs = true := by
        simpa [keysFresh, Bool.and_eq_true] using h
      rcases List.mem_cons.mp hp with rfl | hmem
      · simpa using h'.1
      · exact keysFresh_spec s kvs h'.2 p hmem

theorem keysNodup_pairwise : ∀ kvs : List (GoVal × GoVal), keysNodup kvs = true →
    List.Pairwise (fun p q => keyStr p.1 ≠ keyStr q.1) kvs
  | [], _ => List.Pairwise.nil
  | (k, v) :: kvs, h => by
      have h' : keysFresh (keyStr k) kvs = true ∧ keysNodup kvs = true := by
        simpa [keysNodup, Bool.and_eq_true] using h
      refine List.Pairwise.cons ?_ (keysNodup_pairwise kvs h'.2)
      intro q hq
      exact (keysFresh_spec (keyStr k) kvs h'.1 q hq).symm

theorem cleanMap_keys : ∀ kvs : List (GoVal × GoVal), CleanMap kvs = true →
    ∀ p ∈ kvs, ∃ t, p.1 = GoVal.str t
  | [], _, p, hp => absurd hp (List.not_mem_nil p)
  | (k, v) :: kvs, h, p, hp => by
      have h' : (isStrKey k = true ∧ Clean v = true) ∧ CleanMap kvs = true := by
        have hb := h
        rw [CleanMap] at hb
        simpa only [Bool.and_eq_true] using hb
      rcases List.mem_cons.mp hp with rfl | hmem
      · cases k <;> simp_all [isStrKey]
      · exact cleanMap_keys kvs h'.2 p hmem

/-- Inserting pairwise-distinct string keys fresh for the accumulator
makes the object-building loop of `goToJv` a plain append of the
converted pairs, in input order, with each key an external string. -/
theorem goToJvObj_clean : ∀ (kvs : List (GoVal × GoVal)) (acc : List (Jv × Jv)),
    (∀ p ∈ kvs, ∃ t, p.1 = GoVal.str t) →
    (∀ p ∈ kvs, ∀ r ∈ acc, r.1 ≠ Jv.str (keyStr p.1)) →
    List.Pairwise (fun p q => keyStr p.1 ≠ keyStr q.1) kvs →
    goToJvObj kvs acc = acc ++ kvs.map (fun p => (Jv.str (keyStr p.1), goToJv p.2))
  | [], acc, _, _, _ => by simp [goToJvObj]
  | (k, v) :: kvs, acc, hkeys, hfresh, hpw => by
      obtain ⟨t, ht⟩ := hkeys (k, v) (List.mem_cons_self _ _)
      have ht' : k = GoVal.str t := ht
      subst ht'
      have hpw' := List.pairwise_cons.mp hpw
      have hset : objSet acc (Jv.str t) (goToJv v) = acc ++ [(Jv.str t, goToJv v)] := by
        apply objSet_append
        intro r hr
        have hne : r.1 ≠ Jv.str t := hfresh (GoVal.str t, v) (List.mem_cons_self _ _) r hr
        rw [Bool.eq_false_iff]
        exact fun hb => hne ((jvBeq_str_eq_true_iff r.1 t).mp hb)
      rw [goToJvObj]
      simp only [show goToJv (GoVal.str t) = Jv.str t from rfl]
      rw [hset]
      rw [goToJvObj_clean kvs (acc ++ [(Jv.str t, goToJv v)])
        (fun p hp => hkeys p (List.mem_cons_of_mem _ hp))
        (by
          intro p hp r hr
          rcases List.mem_append.mp hr with hr' | hr'
          · exact hfresh p (List.mem_cons_of_mem _ hp) r hr'
          · have : r = (Jv.str t, goToJv v) := by simpa using hr'
            rw [this]
            intro he
            exact hpw'.1 p hp (by injection he)
          )
        hpw'.2]
      simp [keyStr]

/-- Converting an object whose keys are pairwise-distinct external strings
back to the host makes the map-filling loop of `jvToGo` a plain append of
the converted pairs, in field order. -/
theorem jvToGoObj_clean : ∀ (F : List (Jv × Jv)) (acc : List (GoVal × GoVal)),
    (∀ q ∈ F, ∃ t, q.1 = Jv.str t) →
    (∀ q ∈ F, ∀ r ∈ acc, goKeyEq r.1 (jvStringValue q.1) = false) →
    List.Pairwise (fun p q => jvStringValue p.1 ≠ jvStringValue q.1) F →
    jvToGoObj F acc = acc ++ F.map (fun q => (GoVal.str (jvStringValue q.1), jvToGo q.2))
  | [], acc, _, _, _ => by simp [jvToGoObj]
  | (k, v) :: F, acc, hkeys, hfresh, hpw => by
      obtain ⟨t, ht⟩ := hkeys (k, v) (List.mem_cons_self _ _)
      have ht' : k = Jv.str t := ht
      subst ht'
      have hpw' := List.pairwise_cons.mp hpw
      have hset : mapInsert acc (jvStringValue (Jv.str t)) (jvToGo v)
          = acc ++ [(GoVal.str t, jvToGo v)] := by
        apply mapInsert_append
        intro r hr
        exact hfresh (Jv.str t, v) (List.mem_cons_self _ _) r hr
      rw [jvToGoObj, hset]
      rw [jvToGoObj_clean F (acc ++ [(GoVal.str t, jvToGo v)])
        (fun q hq => hkeys q (List.mem_cons_of_mem _ hq))
        (by
          intro q hq r hr
          rcases List.mem_append.mp hr with hr' | hr'
          · exact hfresh q (List.mem_cons_of_mem _ hq) r hr'
          · have : r = (GoVal.str t, jvToGo v) := by simpa using hr'
            rw [this]
            have hne : jvStringValue (Jv.str t, v).1 ≠ jvStringValue q.1 := hpw'.1 q hq
            simp only [goKeyEq]
            rw [beq_eq_false_iff_ne]
            exact fun he => hne (by simpa [jvStringValue] using he)
          )
        hpw'.2]
      simp [jvStringValue]

mutual

/-- Round trip of a clean host value, by mutual structural induction. -/
theorem roundtrip_val : ∀ v : GoVal, Clean v = true → jvToGo (goToJv v) = v
  | .nil, _ => rfl
  | .bool b, _ => by cases b <;> rfl
  | .int n, _ => by
      show jvToGo (Jv.number (n : ℚ)) = GoVal.int n
      simp [jvToGo, jvIsInteger]
  | .uint n, h => by simp [Clean] at h
  | .float q, h => by
      have hq : jvIsInteger q = false := by
        have hb : (!jvIsInteger q) = true := h
        simpa using hb
      show jvToGo (Jv.number q) = GoVal.float q
      simp [jvToGo, hq]
  | .str s, _ => rfl
  | .list xs, h => by
      have hl : CleanList xs = true := h
      show jvToGo (Jv.arr (goToJvList xs)) = GoVal.list xs
      exact congrArg GoVal.list (roundtrip_list xs hl)
  | .map kvs, h => by
      have hsplit : CleanMap kvs = true ∧ keysNodup kvs = true := by
        have hb : (CleanMap kvs && keysNodup kvs) = true := h
        simpa [Bool.and_eq_true] using hb
      have hcm := hsplit.1
      have hkeys := cleanMap_keys kvs hcm
      have hpw := keysNodup_pairwise kvs hsplit.2
      have hA : goToJvObj kvs []
          = kvs.map (fun p => (Jv.str (keyStr p.1), goToJv p.2)) := by
        simpa using goToJvObj_clean kvs [] hkeys (by intro p _ r hr; simp at hr) hpw
      show jvToGo (Jv.obj (goToJvObj kvs [])) = GoVal.map kvs
      rw [hA]
      show GoVal.map
          (jvToGoObj (kvs.map fun p => (Jv.str (keyStr p.1), goToJv p.2)) [])
        = GoVal.map kvs
      have hBkeys : ∀ q ∈ kvs.map (fun p => (Jv.str (keyStr p.1), goToJv p.2)),
          ∃ t, q.1 = Jv.str t := by
        intro q hq
        obtain ⟨p, _, rfl⟩ := List.mem_map.mp hq
        exact ⟨keyStr p.1, rfl⟩
      have hBpw : List.Pairwise (fun p q => jvStringValue p.1 ≠ jvStringValue q.1)
          (kvs.map fun p => (Jv.str (keyStr p.1), goToJv p.2)) := by
        rw [List.pairwise_map]
        exact hpw.imp (fun hne => by simpa [jvStringValue] using hne)
      have hB := jvToGoObj_clean (kvs.map fun p => (Jv.str (keyStr p.1), goToJv p.2)) []
        hBkeys (by intro q _ r hr; simp at hr) hBpw
      rw [hB]
      refine congrArg GoVal.map ?_
      rw [List.nil_append, List.map_map]
      have hid : ∀ p ∈ kvs,
          ((fun q => (GoVal.str (jvStringValue q.1), jvToGo q.2)) ∘
            (fun p => (Jv.str (keyStr p.1), goToJv p.2))) p = p := by
        intro p hp
        obtain ⟨t, ht⟩ := hkeys p hp
        have hkey : GoVal.str (keyStr p.1) = p.1 := by rw [ht]; rfl
        have hval : jvToGo (goToJv p.2) = p.2 := roundtrip_pairs kvs hcm p hp
        simp only [Function.comp, jvStringValue]
        rw [hkey, hval]
      rw [List.map_congr_left hid]
      exact List.map_id kvs
  | .ptr v, h => by simp [Clean] at h
  | .err m, h => by simp [Clean] at h

/-- Element-wise round trip for array elements. -/
theorem roundtrip_list : ∀ xs : List GoVal, CleanList xs = true →
    jvToGoList (goToJvList xs) = xs
  | [], _ => rfl
  | x :: xs, h => by
      have h' : Clean x = true ∧ CleanList xs = true := by
        have hb : (Clean x && CleanList xs) = true := h
        simpa [Bool.and_eq_true] using hb
      show jvToGo (goToJv x) :: jvToGoList (goToJvList xs) = x :: xs
      rw [roundtrip_val x h'.1, roundtrip_list xs h'.2]

/-- Element-wise round trip for the values of a clean map. -/
theorem roundtrip_pairs : ∀ kvs : List (GoVal × GoVal), CleanMap kvs = true →
    ∀ p ∈ kvs, jvToGo (goToJv p.2) = p.2
  | [], _, p, hp => absurd hp (List.not_mem_nil p)
  | (k, v) :: kvs, h, p, hp => by
      have h' : (isStrKey k = true ∧ Clean v = true) ∧ CleanMap kvs = true := by
        have hb := h
        rw [CleanMap] at hb
        simpa only [Bool.and_eq_true] using hb
      rcases List.mem_cons.mp hp with rfl | hmem
      · exact roundtrip_val v h'.1.2
      · exact roundtrip_pairs kvs h'.2 p hmem

end

/-- C4 (amended): for every host value built from the six bridged kinds —
with map keys textual and duplicate-free — the external-and-back round
trip is structurally the identity, *provided* no `Float` in the value is
integral: an integral `Float` returns as the corresponding `Int` (and in
this exact model the `Int` road is lossless; on real hardware an `Int`
beyond double precision may additionally lose precision). -/
theorem roundtrip_clean (v : GoVal) (h : Clean v = true) : jvToGo (goToJv v) = v :=
  roundtrip_val v h

/-- C4 (counterexample): the host float 2 — one of the six kinds — does
not survive the round trip: the engine marks the number 2 integral, so it
converts back as the *Int* 2, which is not structurally equal to the
Float 2. -/
theorem integral_float_roundtrip_lost :
    jvToGo (goToJv (GoVal.float 2)) = GoVal.int 2
    ∧ GoVal.int 2 ≠ GoVal.float 2 :=
  ⟨rfl, fun h => GoVal.noConfusion h⟩

/-- Witness for the amended C4: a nested clean value round trips intact. -/
theorem roundtrip_clean_witness :
    Clean (GoVal.map [(GoVal.str "a", GoVal.list [GoVal.int 1, GoVal.float half])]) = true
    ∧ jvToGo (goToJv (GoVal.map [(GoVal.str "a", GoVal.list [GoVal.int 1, GoVal.float half])]))
      = GoVal.map [(GoVal.str "a", GoVal.list [GoVal.int 1, GoVal.float half])] :=
  ⟨rfl, roundtrip_clean _ rfl⟩

/-- Every key of `objSet fields k v` is `k` or a key of `fields`. -/
theorem objSet_keys (fields : List (Jv × Jv)) (k v : Jv) :
    ∀ q ∈ objSet fields k v, q.1 = k ∨ ∃ r ∈ fields, q.1 = r.1 := by
  intro q hq
  unfold objSet at hq
  split at hq
  · obtain ⟨r, hr, hq⟩ := List.mem_map.mp hq
    right
    refine ⟨r, hr, ?_⟩
    by_cases hb : jvBeq r.1 k = true
    · rw [if_pos hb] at hq; rw [← hq]
    · rw [if_neg hb] at hq; rw [← hq]
  · rcases List.mem_append.mp hq with h1 | h1
    · right; exact ⟨q, h1, rfl⟩
    · left
      have hq' : q = (k, v) := by simpa using h1
      rw [hq']

/-- C6 (amended): every key inserted by the map case of `goToJv` is the
*general* conversion of the host key; when all host keys are textual,
every key of the resulting external object is an external string. -/
theorem textual_keys_give_string_keys (kvs : List (GoVal × GoVal))
    (h : ∀ p ∈ kvs, ∃ t, p.1 = GoVal.str t) :
    ∃ F, goToJv (GoVal.map kvs) = Jv.obj F ∧ ∀ q ∈ F, ∃ t, q.1 = Jv.str t := by
  refine ⟨goToJvObj kvs [], rfl, ?_⟩
  suffices hgen : ∀ (kv : List (GoVal × GoVal)) (acc : List (Jv × Jv)),
      (∀ p ∈ kv, ∃ t, p.1 = GoVal.str t) → (∀ r ∈ acc, ∃ t, r.1 = Jv.str t) →
      ∀ q ∈ goToJvObj kv acc, ∃ t, q.1 = Jv.str t by
    exact hgen kvs [] h (by intro r hr; simp at hr)
  intro kv
  induction kv with
  | nil => intro acc _ hacc q hq; exact hacc q hq
  | cons hd tl ih =>
    intro acc hkv hacc q hq
    obtain ⟨k, v⟩ := hd
    obtain ⟨t, ht⟩ := hkv (k, v) (List.mem_cons_self _ _)
    have ht' : k = GoVal.str t := ht
    subst ht'
    rw [goToJvObj] at hq
    refine ih (objSet acc (goToJv (GoVal.str t)) (goToJv v))
      (fun p hp => hkv p (List.mem_cons_of_mem _ hp)) ?_ q hq
    intro r hr
    rcases objSet_keys acc (goToJv (GoVal.str t)) (goToJv v) r hr with h1 | ⟨r', hr', h1⟩
    · exact ⟨t, by rw [h1]; rfl⟩
    · obtain ⟨u, hu⟩ := hacc r' hr'
      exact ⟨u, by rw [h1, hu]⟩

/-- Witness for the amended C6: a singleton map with a textual key yields
an object whose every key is an external string. -/
theorem textual_keys_give_string_keys_witness :
    ∃ F, goToJv (GoVal.map [(GoVal.str "a", GoVal.nil)]) = Jv.obj F
      ∧ ∀ q ∈ F, ∃ t, q.1 = Jv.str t :=
  textual_keys_give_string_keys [(GoVal.str "a", GoVal.nil)]
    (by intro p hp; simp at hp; exact ⟨"a", by rw [hp]⟩)

end GoJq
